import Mathlib

set_option linter.unusedVariables false

/-!
Verification of the `Bus` class of `cocotb_bus/bus.py` (cocotb-bus).

The Python module is a name-resolution and batch-operation facade over
simulator signal handles.  We give a shallow embedding:

* Python attribute dictionaries become association lists
  (`List (String × _)`) with Python `dict` insertion semantics
  (`dictInsert`: replace in place, else append).
* A simulator signal handle is identified by a `HandleId`; the mutable
  simulator signal state is a function `SimState : HandleId → PyVal`.
* Values held in object attributes and in signals are `PyVal`: either a
  bit-string-capable value (carrying its Python type name and its
  bit-string, mirroring cocotb `BinaryValue.get_binstr`/`set_binstr`)
  or a plain value without the bit-string API.
* Fallible Python code returns `Except PyError _`; `PyError` records the
  exception class and message.
* `_caseInsensGetattr` returns `Option Handle` (`None` on failure), and
  `_add_signal` can therefore record a `none` handle, exactly as the
  Python code can store `None` in `self._signals`.
-/

namespace CocotbBus

instance {ε α : Type} [DecidableEq ε] [DecidableEq α] : DecidableEq (Except ε α) := fun x y =>
  match x, y with
  | .ok a, .ok b => if h : a = b then isTrue (by rw [h]) else isFalse (by simp [h])
  | .error a, .error b => if h : a = b then isTrue (by rw [h]) else isFalse (by simp [h])
  | .ok _, .error _ => isFalse (by simp)
  | .error _, .ok _ => isFalse (by simp)

/-- Python `str.upper()` (modelled character-wise, adequate for ASCII
signal names). -/
def strUpper (s : String) : String := String.mk (s.data.map Char.toUpper)

/-- Python `str.lower()`; also used to model `str.casefold()`, which
agrees with it on ASCII. -/
def strLower (s : String) : String := String.mk (s.data.map Char.toLower)

/-- A Python value as observed by this module: either a value with the
bit-string API (`get_binstr`/`set_binstr`, e.g. cocotb `BinaryValue`),
carrying its Python type name `ty` and its bit-string `bits`, or a plain
value without that API. -/
inductive PyVal where
  | binval (ty : String) (bits : String)
  | plain (ty : String) (rep : String)
deriving DecidableEq, Repr

instance : Inhabited PyVal := ⟨PyVal.plain "NoneType" "None"⟩

/-- The Python type name of a value (`type(v).__qualname__`). -/
def PyVal.pyType : PyVal → String
  | .binval ty _ => ty
  | .plain ty _ => ty

/-- `v.get_binstr()`: available only on bit-string-capable values. -/
def PyVal.getBinstr : PyVal → Option String
  | .binval _ bits => some bits
  | .plain _ _ => none

/-- `v.set_binstr(bits)`: in-place update of the bit-string, preserving
the Python type of `v`; unavailable on plain values. -/
def PyVal.setBinstr : PyVal → String → Option PyVal
  | .binval ty _, bits => some (.binval ty bits)
  | .plain _ _, _ => none

/-- Identity of a simulator signal handle. -/
abbrev HandleId := Nat

/-- A simulator signal handle: its identity plus the identities of its
array elements (empty for a scalar signal, which is not subscriptable). -/
structure Handle where
  id : HandleId
  subs : List HandleId
deriving DecidableEq, Repr

/-- Embedded Python exceptions raised by the code under verification,
carrying the exception class and the message/payload. -/
inductive PyError where
  | attributeError (msg : String)
  | runtimeError (msg : String)
  | typeError (msg : String)
  | indexError (i : Nat)
deriving DecidableEq, Repr

/-- `handle[i]`: array indexing on a handle.  A scalar handle is not
subscriptable (`TypeError`); an out-of-range index is an `IndexError`. -/
def Handle.index (h : Handle) (i : Nat) : Except PyError Handle :=
  if h.subs = [] then .error (.typeError "handle is not subscriptable")
  else
    match h.subs.get? i with
    | some j => .ok ⟨j, []⟩
    | none => .error (.indexError i)

/-- Association-list lookup with Python attribute-lookup semantics
(first entry with the key wins). -/
def alookup {α : Type} : List (String × α) → String → Option α
  | [], _ => none
  | (k', v) :: rest, k => if k' = k then some v else alookup rest k

/-- The keys of an association list. -/
def akeys {α : Type} (l : List (String × α)) : List String := l.map Prod.fst

/-- Python `dict` assignment `d[k] = v`: replace the value in place when
the key is present, otherwise append the pair. -/
def dictInsert {α : Type} : List (String × α) → String → α → List (String × α)
  | [], k, v => [(k, v)]
  | (k', v') :: rest, k, v =>
    if k' = k then (k, v) :: rest else (k', v') :: dictInsert rest k v

/-- The entity (`SimHandle` to the design) containing the bus: a name
(`entity._name`, used in error messages) and its attribute table mapping
signal names to handles. -/
structure Entity where
  ename : String
  attrs : List (String × Handle)
deriving DecidableEq, Repr

/-- `getattr(entity, a)` as a total function (`None` on failure);
`hasattr` is `isSome` of this. -/
def Entity.getattrOpt (e : Entity) (a : String) : Option Handle :=
  alookup e.attrs a

/-- `dir(entity)`: the attribute names of the entity. -/
def Entity.dir (e : Entity) : List String := e.attrs.map Prod.fst

/-- `getattr(entity, a)` as the raising form: a missing attribute raises
an `AttributeError` whose payload names the missing attribute. -/
def Entity.getattrEx (e : Entity) (a : String) : Except PyError Handle :=
  match alookup e.attrs a with
  | some h => .ok h
  | none => .error (.attributeError a)

/-- `Bus._caseInsensGetattr(obj, attr)`: try the exact name, the
fully-uppercased name and the fully-lowercased name with `hasattr`;
if all fail, scan `dir(obj)` for a case-folded match (Python `casefold`
is modelled by `toLower`, adequate for ASCII signal names).  Returns
`none` when nothing matches.  (The Verilator `warnings.warn` call on the
scan path has no effect on the result and is not modelled.) -/
def caseInsensGetattr (e : Entity) (attr : String) : Option Handle :=
  match e.getattrOpt attr with
  | some h => some h
  | none =>
    match e.getattrOpt (strUpper attr) with
    | some h => some h
    | none =>
      match e.getattrOpt (strLower attr) with
      | some h => some h
      | none =>
        match e.dir.find? (fun a => strLower a = strLower attr) with
        | some a => e.getattrOpt a
        | none => none

/-- The case-insensitive resolution policy as the specification words
it (for comparison with `caseInsensGetattr`, which is translated from
the source): try the exact name, then the fully-uppercased name, then
the fully-lowercased name; only if all three fail, fall back to an
exhaustive case-folded scan of every attribute on the entity, the only
path by which arbitrary-case names resolve. -/
def caseInsensSpecPolicy (e : Entity) (attr : String) : Option Handle :=
  if (e.getattrOpt attr).isSome then e.getattrOpt attr
  else if (e.getattrOpt (strUpper attr)).isSome then e.getattrOpt (strUpper attr)
  else if (e.getattrOpt (strLower attr)).isSome then e.getattrOpt (strLower attr)
  else
    match e.dir.find? (fun a => strLower a = strLower attr) with
    | some a => e.getattrOpt a
    | none => none

/-- The `Bus` object after construction: the entity and bus name stored
in `__init__`, the `self._signals` dictionary, and the instance
attributes created by `setattr(self, attr_name, handle)` in
`_add_signal`.  Both dictionaries hold `Option Handle` because the
Python code can store `None` there. -/
structure Bus where
  entity : Entity
  name : Option String
  signals : List (String × Option Handle)
  instAttrs : List (String × Option Handle)
deriving DecidableEq, Repr

/-- `Bus._add_signal(attr_name, signame, array_idx, case_insensitive)`:
resolve the handle (case-insensitively or with raising `getattr`),
optionally index it, then `setattr(self, attr_name, handle)` and
`self._signals[attr_name] = getattr(self, attr_name)` (the read-back of
the instance attribute just set). -/
def addSignal (b : Bus) (attrName signame : String) (arrayIdx : Option Nat)
    (caseInsensitive : Bool) : Except PyError Bus :=
  let resolved : Except PyError (Option Handle) :=
    if caseInsensitive then .ok (caseInsensGetattr b.entity signame)
    else
      match b.entity.getattrEx signame with
      | .ok h => .ok (some h)
      | .error err => .error err
  match resolved with
  | .error err => .error err
  | .ok handle0 =>
    let indexed : Except PyError (Option Handle) :=
      match arrayIdx with
      | none => .ok handle0
      | some i =>
        match handle0 with
        | none => .error (.typeError "NoneType object is not subscriptable")
        | some h =>
          match h.index i with
          | .ok h' => .ok (some h')
          | .error err => .error err
    match indexed with
    | .error err => .error err
    | .ok handle =>
      let instAttrs' := dictInsert b.instAttrs attrName handle
      let readBack := (alookup instAttrs' attrName).getD none
      .ok ⟨b.entity, b.name, dictInsert b.signals attrName readBack, instAttrs'⟩

/-- The `signals`/`optional_signals` argument: either a list of names
(attribute name equals on-entity signal name) or a dict mapping
attribute names to on-entity signal names. -/
inductive SignalsArg where
  | list (names : List String)
  | dict (pairs : List (String × String))
deriving DecidableEq, Repr

/-- `_build_sig_attr_dict(signals)`. -/
def buildSigAttrDict : SignalsArg → List (String × String)
  | .list names => names.map (fun s => (s, s))
  | .dict pairs => pairs

/-- The composed on-entity signal name: `name + bus_separator + sig_name`
when a bus name is given and truthy (a Python empty string is falsy),
otherwise the bare signal name. -/
def composeName (name : Option String) (busSeparator sigName : String) : String :=
  match name with
  | some n => if n = "" then sigName else n ++ busSeparator ++ sigName
  | none => sigName

/-- The mandatory-signal loop of `Bus.__init__`: `_add_signal` on each
composed name, propagating the first error. -/
def addSignals (b : Bus) (pairs : List (String × String)) (name : Option String)
    (busSeparator : String) (arrayIdx : Option Nat) (caseInsensitive : Bool) :
    Except PyError Bus :=
  match pairs with
  | [] => .ok b
  | (attrName, sigName) :: rest =>
    match addSignal b attrName (composeName name busSeparator sigName) arrayIdx caseInsensitive with
    | .error err => .error err
    | .ok b' => addSignals b' rest name busSeparator arrayIdx caseInsensitive

/-- The optional-signal loop of `Bus.__init__`: probe each composed name
with `_caseInsensGetattr` (always case-insensitively, whatever the
`case_insensitive` flag says); if the probe is not `None`, follow the
same `_add_signal` path as mandatory signals, else skip the signal. -/
def addOptionalSignals (b : Bus) (pairs : List (String × String)) (name : Option String)
    (busSeparator : String) (arrayIdx : Option Nat) (caseInsensitive : Bool) :
    Except PyError Bus :=
  match pairs with
  | [] => .ok b
  | (attrName, sigName) :: rest =>
    if (caseInsensGetattr b.entity (composeName name busSeparator sigName)).isSome then
      match addSignal b attrName (composeName name busSeparator sigName) arrayIdx caseInsensitive with
      | .error err => .error err
      | .ok b' => addOptionalSignals b' rest name busSeparator arrayIdx caseInsensitive
    else addOptionalSignals b rest name busSeparator arrayIdx caseInsensitive

/-- `Bus.__init__`: store entity and name, start with an empty
`_signals` dictionary, process the mandatory signals, then the optional
signals. -/
def Bus.init (entity : Entity) (name : Option String) (signals optionalSignals : SignalsArg)
    (busSeparator : String) (caseInsensitive : Bool) (arrayIdx : Option Nat) :
    Except PyError Bus :=
  match addSignals ⟨entity, name, [], []⟩ (buildSigAttrDict signals) name busSeparator
      arrayIdx caseInsensitive with
  | .error err => .error err
  | .ok b1 => addOptionalSignals b1 (buildSigAttrDict optionalSignals) name busSeparator
      arrayIdx caseInsensitive

/-- An object driven onto / sampled from the bus: its Python type name
(`type(obj).__qualname__`) and its attribute dictionary. -/
structure Obj where
  tyName : String
  oattrs : List (String × PyVal)
deriving DecidableEq, Repr

/-- `setattr(obj, a, v)`. -/
def Obj.setattr (o : Obj) (a : String) (v : PyVal) : Obj :=
  ⟨o.tyName, dictInsert o.oattrs a v⟩

/-- The mutable simulator signal state: the current value of each
handle.  `hdl.value` reads it; `hdl.value = v` writes it. -/
def SimState := HandleId → PyVal

/-- Write a handle's value (`hdl.value = v`). -/
def SimState.set (st : SimState) (i : HandleId) (v : PyVal) : SimState :=
  fun j => if j = i then v else st j

/-- Python string formatting of the bus name field, which may be `None`. -/
def pyFormatName : Option String → String
  | none => "None"
  | some s => s

/-- The message of the strict-mode `AttributeError` raised by `drive`. -/
def driveMsg (ename : String) (name : Option String) (tyName attrName : String) : String :=
  "Unable to drive onto " ++ ename ++ "." ++ pyFormatName name ++ " because "
    ++ tyName ++ " is missing attribute " ++ attrName

/-- The message of the strict-mode `AttributeError` raised by `sample`. -/
def sampleMsg (ename : String) (name : Option String) (tyName attrName : String) : String :=
  "Unable to sample from " ++ ename ++ "." ++ pyFormatName name ++ " because "
    ++ tyName ++ " is missing attribute " ++ attrName

/-- The message of the `AttributeError` raised by touching `.value` on a
`None` handle (one the construction stored for an unresolved signal). -/
def noneValueMsg : String := "NoneType object has no attribute value"

/-- The loop body of `Bus.drive` over the `self._signals` items: skip or
raise on a missing object attribute according to `strict`, otherwise
`hdl.value = getattr(obj, attr_name)`.  An exception stops the loop;
the writes made before it persist. -/
def driveAux (ename : String) (name : Option String) (obj : Obj) (strict : Bool) :
    List (String × Option Handle) → SimState → SimState × Option PyError
  | [], st => (st, none)
  | (attrName, hdl) :: rest, st =>
    match alookup obj.oattrs attrName with
    | none =>
      if strict then (st, some (.attributeError (driveMsg ename name obj.tyName attrName)))
      else driveAux ename name obj strict rest st
    | some v =>
      match hdl with
      | none => (st, some (.attributeError noneValueMsg))
      | some h => driveAux ename name obj strict rest (st.set h.id v)

/-- `Bus.drive(obj, strict)`. -/
def Bus.drive (b : Bus) (obj : Obj) (strict : Bool) (st : SimState) :
    SimState × Option PyError :=
  driveAux b.entity.ename b.name obj strict b.signals st

/-- The capture object: the `_Capture` dict built by `Bus.capture`. -/
abbrev Capture := List (String × PyVal)

/-- `_Capture.__getattr__`: return the entry when the name is a key,
else raise a `RuntimeError` naming the absent signal. -/
def captureGetattr (c : Capture) (attrName : String) : Except PyError PyVal :=
  match alookup c attrName with
  | some v => .ok v
  | none => .error (.runtimeError ("Signal " ++ attrName ++ " not present in bus"))

/-- `_Capture.__setattr__`: always raises; the message does not mention
the attribute name. -/
def captureSetattr (c : Capture) (attrName : String) (v : PyVal) : Except PyError Capture :=
  .error (.runtimeError "Modifying a bus capture is not supported")

/-- `_Capture.__delattr__`: always raises; the message does not mention
the attribute name. -/
def captureDelattr (c : Capture) (attrName : String) : Except PyError Capture :=
  .error (.runtimeError "Modifying a bus capture is not supported")

/-- `_Capture` key assignment `cap[k] = v`: inherited unchanged from
`dict`, so it succeeds and mutates the capture (it is also what
`Bus.capture` itself uses to fill the dict). -/
def captureSetitem (c : Capture) (attrName : String) (v : PyVal) : Capture :=
  dictInsert c attrName v

/-- The loop of `Bus.capture`: `_capture[attr_name] = hdl.value` over the
`self._signals` items (reading `.value` on a `None` handle raises). -/
def captureAux (st : SimState) : List (String × Option Handle) → Capture →
    Except PyError Capture
  | [], acc => .ok acc
  | (attrName, hdl) :: rest, acc =>
    match hdl with
    | none => .error (.attributeError noneValueMsg)
    | some h => captureAux st rest (captureSetitem acc attrName (st h.id))

/-- `Bus.capture()`. -/
def Bus.capture (b : Bus) (st : SimState) : Except PyError Capture :=
  captureAux st b.signals []

/-- The per-signal assignment of `Bus.sample`:
`getattr(obj, attr_name).set_binstr(hdl.value.get_binstr())`, falling
back to plain replacement by `hdl.value` when either side lacks the
bit-string API (the `except AttributeError` branch). -/
def sampleAssign (dest hv : PyVal) : PyVal :=
  match hv.getBinstr with
  | some bits =>
    match dest.setBinstr bits with
    | some dest' => dest'
    | none => hv
  | none => hv

/-- The loop body of `Bus.sample` over the `self._signals` items.  A
`None` handle raises on both the bit-string path and the fallback
`setattr` (reading `.value` on `None`). -/
def sampleAux (ename : String) (name : Option String) (strict : Bool) (st : SimState) :
    List (String × Option Handle) → Obj → Obj × Option PyError
  | [], obj => (obj, none)
  | (attrName, hdl) :: rest, obj =>
    match alookup obj.oattrs attrName with
    | none =>
      if strict then (obj, some (.attributeError (sampleMsg ename name obj.tyName attrName)))
      else sampleAux ename name strict st rest obj
    | some dest =>
      match hdl with
      | none => (obj, some (.attributeError noneValueMsg))
      | some h => sampleAux ename name strict st rest
          (obj.setattr attrName (sampleAssign dest (st h.id)))

/-- `Bus.sample(obj, strict)`. -/
def Bus.sample (b : Bus) (obj : Obj) (strict : Bool) (st : SimState) :
    Obj × Option PyError :=
  sampleAux b.entity.ename b.name strict st b.signals obj

/-- The deferred-assignment token `_AssignmentResult(self, value)`
produced by the external handle layer (`cocotb.handle`); it records the
assignment target and value without performing any write itself. -/
structure AssignmentResult where
  bus : Bus
  value : Obj
deriving DecidableEq, Repr

/-- `Bus.__le__(value)`: `self.drive(value)` followed by
`return _AssignmentResult(self, value)`; an exception from `drive`
propagates, so no token is produced then. -/
def Bus.le (b : Bus) (value : Obj) (st : SimState) :
    (SimState × Option PyError) × Option AssignmentResult :=
  let r := b.drive value false st
  match r.2 with
  | some err => ((r.1, some err), none)
  | none => ((r.1, none), some ⟨b, value⟩)

/-- One post-construction operation on a Bus. -/
inductive BusOp where
  | driveOp (obj : Obj) (strict : Bool)
  | sampleOp (obj : Obj) (strict : Bool)
  | captureOp
  | assignLe (obj : Obj)
deriving Repr

/-- Run one operation against the bus and the simulator state.  The
translation of each method is the corresponding definition above; none
of the method bodies assigns to `self._signals` or `setattr`s the bus,
so each step returns the bus it was given. -/
def runOp (b : Bus) (st : SimState) : BusOp → Bus × SimState
  | .driveOp obj strict => (b, (b.drive obj strict st).1)
  | .sampleOp obj strict =>
    let r := b.sample obj strict st
    (b, st)
  | .captureOp =>
    let c := b.capture st
    (b, st)
  | .assignLe obj => (b, ((b.le obj st).1).1)

/-- Run a sequence of operations. -/
def runOps (b : Bus) (st : SimState) : List BusOp → Bus × SimState
  | [] => (b, st)
  | op :: rest =>
    let r := runOp b st op
    runOps r.1 r.2 rest

/-- The members of the `Bus` class object (its methods); instance
attributes shadow them under Python attribute lookup. -/
def busClassMembers : List String :=
  ["__init__", "_caseInsensGetattr", "_add_signal", "drive", "capture", "sample", "__le__"]

/-- What Python attribute lookup on a `Bus` instance can find: a signal
handle stored in the instance dictionary by `_add_signal`, or a method
of the class. -/
inductive BusMember where
  | sig (h : Option Handle)
  | method (methodName : String)
deriving DecidableEq, Repr

/-- Python attribute lookup on a `Bus` instance: the instance dictionary
first (methods are non-data descriptors), the class second. -/
def Bus.getattrB (b : Bus) (attrName : String) : Option BusMember :=
  match alookup b.instAttrs attrName with
  | some h => some (.sig h)
  | none =>
    if busClassMembers.contains attrName then some (.method attrName) else none

/-- The handle identities resolved in a signal dictionary (used to state
that distinct bus attributes drive distinct simulator signals). -/
def signalIds (l : List (String × Option Handle)) : List HandleId :=
  l.filterMap (fun p => p.2.map Handle.id)

/-- The identity of an optional handle (`0` for `none`; only used under
hypotheses that rule the `none` case out). -/
def hdlId : Option Handle → HandleId
  | some h => h.id
  | none => 0

/-! ### Helper lemmas: association lists -/

theorem alookup_dictInsert_self {α : Type} (l : List (String × α)) (k : String) (v : α) :
    alookup (dictInsert l k v) k = some v := by
  induction l with
  | nil => simp [dictInsert, alookup]
  | cons p rest ih =>
    obtain ⟨k', v'⟩ := p
    by_cases h : k' = k
    · simp [dictInsert, h, alookup]
    · simp [dictInsert, h, alookup, ih]

theorem alookup_dictInsert_ne {α : Type} (l : List (String × α)) (k k' : String) (v : α)
    (h : k' ≠ k) : alookup (dictInsert l k v) k' = alookup l k' := by
  have h2 : ¬ (k = k') := fun hh => h hh.symm
  induction l with
  | nil => simp [dictInsert, alookup, h2]
  | cons p rest ih =>
    obtain ⟨k0, v0⟩ := p
    by_cases h0 : k0 = k
    · subst h0
      simp [dictInsert, alookup, h2]
    · simp only [dictInsert, h0, if_false, alookup]
      by_cases h1 : k0 = k'
      · simp [h1]
      · simp [h1, ih]

theorem alookup_eq_none_of_not_mem {α : Type} (l : List (String × α)) (k : String)
    (h : k ∉ akeys l) : alookup l k = none := by
  induction l with
  | nil => simp [alookup]
  | cons p rest ih =>
    obtain ⟨k', v'⟩ := p
    simp only [akeys, List.map_cons, List.mem_cons] at h
    push_neg at h
    simp only [alookup, if_neg (fun hh : k' = k => h.1 hh.symm)]
    exact ih (fun hm => h.2 (by simpa [akeys] using hm))

theorem akeys_dictInsert_subset {α : Type} (l : List (String × α)) (k : String) (v : α) :
    akeys (dictInsert l k v) ⊆ k :: akeys l := by
  induction l with
  | nil => simp [dictInsert, akeys]
  | cons p rest ih =>
    obtain ⟨k', v'⟩ := p
    by_cases h : k' = k
    · simp [dictInsert, h, akeys]
    · simp only [dictInsert, h, if_false, akeys, List.map_cons]
      intro x hx
      rcases List.mem_cons.mp hx with h1 | h1
      · simp [h1]
      · rcases List.mem_cons.mp (ih h1) with h2 | h2
        · simp [h2]
        · simp only [List.mem_cons]
          exact Or.inr (Or.inr h2)

theorem dictInsert_of_not_mem {α : Type} (l : List (String × α)) (k : String) (v : α)
    (h : k ∉ akeys l) : dictInsert l k v = l ++ [(k, v)] := by
  induction l with
  | nil => simp [dictInsert]
  | cons p rest ih =>
    obtain ⟨k', v'⟩ := p
    simp only [akeys, List.map_cons, List.mem_cons] at h
    push_neg at h
    simp only [dictInsert, if_neg (fun hh : k' = k => h.1 hh.symm), List.cons_append,
      List.cons.injEq, true_and]
    exact ih (fun hm => h.2 (by simpa [akeys] using hm))

/-! ### Helper lemmas: name resolution -/

theorem caseInsensGetattr_exact (e : Entity) (attr : String)
    (h : (e.getattrOpt attr).isSome) : caseInsensGetattr e attr = e.getattrOpt attr := by
  unfold caseInsensGetattr
  obtain ⟨hh, heq⟩ := Option.isSome_iff_exists.mp h
  rw [heq]

/-! ### Helper lemmas: construction -/

theorem addSignal_shape (b b' : Bus) (attrName signame : String) (arrayIdx : Option Nat)
    (ci : Bool) (h : addSignal b attrName signame arrayIdx ci = .ok b') :
    ∃ handle, b' = ⟨b.entity, b.name, dictInsert b.signals attrName handle,
      dictInsert b.instAttrs attrName handle⟩ := by
  unfold addSignal at h
  dsimp only at h
  split at h
  · exact absurd h (by simp)
  · rename_i handle0 heq0
    split at h
    · exact absurd h (by simp)
    · rename_i handle heq1
      simp only [alookup_dictInsert_self, Option.getD_some, Except.ok.injEq] at h
      exact ⟨handle, h.symm⟩

theorem addSignal_frame (b b' : Bus) (attrName signame : String) (arrayIdx : Option Nat)
    (ci : Bool) (h : addSignal b attrName signame arrayIdx ci = .ok b') :
    b'.entity = b.entity ∧ b'.name = b.name := by
  obtain ⟨handle, rfl⟩ := addSignal_shape b b' attrName signame arrayIdx ci h
  exact ⟨rfl, rfl⟩

theorem addSignal_sigs_eq_inst (b b' : Bus) (attrName signame : String)
    (arrayIdx : Option Nat) (ci : Bool) (hinv : b.signals = b.instAttrs)
    (h : addSignal b attrName signame arrayIdx ci = .ok b') :
    b'.signals = b'.instAttrs := by
  obtain ⟨handle, rfl⟩ := addSignal_shape b b' attrName signame arrayIdx ci h
  simp [hinv]

theorem addSignal_keys (b b' : Bus) (attrName signame : String) (arrayIdx : Option Nat)
    (ci : Bool) (h : addSignal b attrName signame arrayIdx ci = .ok b') :
    akeys b'.signals ⊆ attrName :: akeys b.signals := by
  obtain ⟨handle, rfl⟩ := addSignal_shape b b' attrName signame arrayIdx ci h
  exact akeys_dictInsert_subset _ _ _

theorem addSignals_frame (name : Option String) (sep : String) (idx : Option Nat) (ci : Bool) :
    ∀ (pairs : List (String × String)) (b b' : Bus),
    addSignals b pairs name sep idx ci = .ok b' → b'.entity = b.entity ∧ b'.name = b.name := by
  intro pairs
  induction pairs with
  | nil =>
    intro b b' h
    simp only [addSignals, Except.ok.injEq] at h
    subst h
    exact ⟨rfl, rfl⟩
  | cons p rest ih =>
    intro b b' h
    obtain ⟨attrName, sigName⟩ := p
    simp only [addSignals] at h
    split at h
    · exact absurd h (by simp)
    · rename_i b1 h1
      obtain ⟨he, hn⟩ := ih b1 b' h
      obtain ⟨he1, hn1⟩ := addSignal_frame b b1 _ _ _ _ h1
      exact ⟨he.trans he1, hn.trans hn1⟩

theorem addOptionalSignals_frame (name : Option String) (sep : String) (idx : Option Nat)
    (ci : Bool) : ∀ (pairs : List (String × String)) (b b' : Bus),
    addOptionalSignals b pairs name sep idx ci = .ok b' →
    b'.entity = b.entity ∧ b'.name = b.name := by
  intro pairs
  induction pairs with
  | nil =>
    intro b b' h
    simp only [addOptionalSignals, Except.ok.injEq] at h
    subst h
    exact ⟨rfl, rfl⟩
  | cons p rest ih =>
    intro b b' h
    obtain ⟨attrName, sigName⟩ := p
    simp only [addOptionalSignals] at h
    split at h
    · split at h
      · exact absurd h (by simp)
      · rename_i b1 h1
        obtain ⟨he, hn⟩ := ih b1 b' h
        obtain ⟨he1, hn1⟩ := addSignal_frame b b1 _ _ _ _ h1
        exact ⟨he.trans he1, hn.trans hn1⟩
    · exact ih b b' h

theorem addSignals_sigs_eq_inst (name : Option String) (sep : String) (idx : Option Nat)
    (ci : Bool) : ∀ (pairs : List (String × String)) (b b' : Bus),
    b.signals = b.instAttrs → addSignals b pairs name sep idx ci = .ok b' →
    b'.signals = b'.instAttrs := by
  intro pairs
  induction pairs with
  | nil =>
    intro b b' hinv h
    simp only [addSignals, Except.ok.injEq] at h
    subst h
    exact hinv
  | cons p rest ih =>
    intro b b' hinv h
    obtain ⟨attrName, sigName⟩ := p
    simp only [addSignals] at h
    split at h
    · exact absurd h (by simp)
    · rename_i b1 h1
      exact ih b1 b' (addSignal_sigs_eq_inst b b1 _ _ _ _ hinv h1) h

theorem addOptionalSignals_sigs_eq_inst (name : Option String) (sep : String)
    (idx : Option Nat) (ci : Bool) : ∀ (pairs : List (String × String)) (b b' : Bus),
    b.signals = b.instAttrs → addOptionalSignals b pairs name sep idx ci = .ok b' →
    b'.signals = b'.instAttrs := by
  intro pairs
  induction pairs with
  | nil =>
    intro b b' hinv h
    simp only [addOptionalSignals, Except.ok.injEq] at h
    subst h
    exact hinv
  | cons p rest ih =>
    intro b b' hinv h
    obtain ⟨attrName, sigName⟩ := p
    simp only [addOptionalSignals] at h
    split at h
    · split at h
      · exact absurd h (by simp)
      · rename_i b1 h1
        exact ih b1 b' (addSignal_sigs_eq_inst b b1 _ _ _ _ hinv h1) h
    · exact ih b b' hinv h

theorem addSignals_keys (name : Option String) (sep : String) (idx : Option Nat) (ci : Bool) :
    ∀ (pairs : List (String × String)) (b b' : Bus),
    addSignals b pairs name sep idx ci = .ok b' →
    akeys b'.signals ⊆ akeys pairs ++ akeys b.signals := by
  intro pairs
  induction pairs with
  | nil =>
    intro b b' h
    simp only [addSignals, Except.ok.injEq] at h
    subst h
    simp [akeys]
  | cons p rest ih =>
    intro b b' h
    obtain ⟨attrName, sigName⟩ := p
    simp only [addSignals] at h
    split at h
    · exact absurd h (by simp)
    · rename_i b1 h1
      intro x hx
      rcases List.mem_append.mp (ih b1 b' h hx) with h2 | h2
      · simp only [akeys, List.map_cons, List.cons_append, List.mem_cons]
        exact Or.inr (List.mem_append.mp (List.mem_append_left _ h2) |>.elim
          (fun hh => List.mem_append.mpr (Or.inl hh)) (fun hh => List.mem_append.mpr (Or.inr hh)))
      · rcases List.mem_cons.mp (addSignal_keys b b1 _ _ _ _ h1 h2) with h3 | h3
        · simp [akeys, h3]
        · simp only [akeys, List.map_cons, List.cons_append, List.mem_cons]
          exact Or.inr (List.mem_append.mpr (Or.inr h3))

theorem addOptionalSignals_keys (name : Option String) (sep : String) (idx : Option Nat)
    (ci : Bool) : ∀ (pairs : List (String × String)) (b b' : Bus),
    addOptionalSignals b pairs name sep idx ci = .ok b' →
    akeys b'.signals ⊆ akeys pairs ++ akeys b.signals := by
  intro pairs
  induction pairs with
  | nil =>
    intro b b' h
    simp only [addOptionalSignals, Except.ok.injEq] at h
    subst h
    simp [akeys]
  | cons p rest ih =>
    intro b b' h
    obtain ⟨attrName, sigName⟩ := p
    simp only [addOptionalSignals] at h
    split at h
    · split at h
      · exact absurd h (by simp)
      · rename_i b1 h1
        intro x hx
        rcases List.mem_append.mp (ih b1 b' h hx) with h2 | h2
        · simp only [akeys, List.map_cons, List.cons_append, List.mem_cons]
          exact Or.inr (List.mem_append.mpr (Or.inl h2))
        · rcases List.mem_cons.mp (addSignal_keys b b1 _ _ _ _ h1 h2) with h3 | h3
          · simp [akeys, h3]
          · simp only [akeys, List.map_cons, List.cons_append, List.mem_cons]
            exact Or.inr (List.mem_append.mpr (Or.inr h3))
    · intro x hx
      rcases List.mem_append.mp (ih b b' h hx) with h2 | h2
      · simp only [akeys, List.map_cons, List.cons_append, List.mem_cons]
        exact Or.inr (List.mem_append.mpr (Or.inl h2))
      · simp only [akeys, List.map_cons, List.cons_append, List.mem_cons]
        exact Or.inr (List.mem_append.mpr (Or.inr h2))

theorem init_keys (entity : Entity) (name : Option String) (signals optionalSignals : SignalsArg)
    (sep : String) (ci : Bool) (idx : Option Nat) (b : Bus)
    (h : Bus.init entity name signals optionalSignals sep ci idx = .ok b) :
    akeys b.signals ⊆ akeys (buildSigAttrDict signals) ++ akeys (buildSigAttrDict optionalSignals) := by
  unfold Bus.init at h
  split at h
  · exact absurd h (by simp)
  · rename_i b1 h1
    intro x hx
    rcases List.mem_append.mp (addOptionalSignals_keys name sep idx ci _ b1 b h hx) with h2 | h2
    · exact List.mem_append.mpr (Or.inr h2)
    · rcases List.mem_append.mp (addSignals_keys name sep idx ci _ _ b1 h1 h2) with h3 | h3
      · exact List.mem_append.mpr (Or.inl h3)
      · simp [akeys] at h3

theorem init_sigs_eq_inst (entity : Entity) (name : Option String)
    (signals optionalSignals : SignalsArg) (sep : String) (ci : Bool) (idx : Option Nat)
    (b : Bus) (h : Bus.init entity name signals optionalSignals sep ci idx = .ok b) :
    b.signals = b.instAttrs := by
  unfold Bus.init at h
  split at h
  · exact absurd h (by simp)
  · rename_i b1 h1
    exact addOptionalSignals_sigs_eq_inst name sep idx ci _ b1 b
      (addSignals_sigs_eq_inst name sep idx ci _ _ b1 rfl h1) h

theorem addSignal_missing_cs (b : Bus) (attrName signame : String) (idx : Option Nat)
    (h : alookup b.entity.attrs signame = none) :
    addSignal b attrName signame idx false = .error (.attributeError signame) := by
  simp [addSignal, Entity.getattrEx, h]

theorem addSignal_missing_ci (b : Bus) (attrName signame : String)
    (h : caseInsensGetattr b.entity signame = none) :
    addSignal b attrName signame none true = .ok
      ⟨b.entity, b.name, dictInsert b.signals attrName none, dictInsert b.instAttrs attrName none⟩ := by
  simp [addSignal, h, alookup_dictInsert_self]

theorem addSignal_exact (b : Bus) (e : Entity) (attrName signame : String) (ci : Bool)
    (hent : b.entity = e) (h : (e.getattrOpt signame).isSome) :
    addSignal b attrName signame none ci = .ok
      ⟨e, b.name, dictInsert b.signals attrName (e.getattrOpt signame),
        dictInsert b.instAttrs attrName (e.getattrOpt signame)⟩ := by
  obtain ⟨hh, heq⟩ := Option.isSome_iff_exists.mp h
  cases ci with
  | true =>
    have hci : caseInsensGetattr e signame = some hh := by
      rw [caseInsensGetattr_exact e signame h, heq]
    simp [addSignal, hent, hci, heq, alookup_dictInsert_self]
  | false =>
    have heq' : alookup e.attrs signame = some hh := heq
    have hex : e.getattrEx signame = .ok hh := by
      unfold Entity.getattrEx
      rw [heq']
    simp [addSignal, hent, hex, heq, alookup_dictInsert_self]

theorem addSignals_resolve (e : Entity) (name : Option String) (sep : String) (ci : Bool) :
    ∀ (sigs : List String) (b : Bus), b.entity = e →
    (∀ s ∈ sigs, (e.getattrOpt (composeName name sep s)).isSome) →
    ∃ b', addSignals b (sigs.map (fun s => (s, s))) name sep none ci = .ok b' ∧
      b'.entity = e ∧
      (∀ s ∈ sigs, alookup b'.signals s = some (e.getattrOpt (composeName name sep s))) ∧
      (∀ t, t ∉ sigs → alookup b'.signals t = alookup b.signals t) := by
  intro sigs
  induction sigs with
  | nil =>
    intro b hent hres
    exact ⟨b, by simp [addSignals], hent, by simp, fun t ht => rfl⟩
  | cons s0 rest ih =>
    intro b hent hres
    have h0 : (e.getattrOpt (composeName name sep s0)).isSome := hres s0 (by simp)
    have hstep := addSignal_exact b e s0 (composeName name sep s0) ci hent h0
    set b1 : Bus := ⟨e, b.name, dictInsert b.signals s0 (e.getattrOpt (composeName name sep s0)),
      dictInsert b.instAttrs s0 (e.getattrOpt (composeName name sep s0))⟩ with hb1
    obtain ⟨b', hrun, hent', hmem, hframe⟩ := ih b1 rfl
      (fun s hs => hres s (List.mem_cons.mpr (Or.inr hs)))
    refine ⟨b', ?_, hent', ?_, ?_⟩
    · simp only [List.map_cons, addSignals, hstep]
      exact hrun
    · intro s hs
      rcases List.mem_cons.mp hs with h1 | h1
      · subst h1
        by_cases h2 : s ∈ rest
        · exact hmem s h2
        · rw [hframe s h2, hb1]
          simp [alookup_dictInsert_self]
      · exact hmem s h1
    · intro t ht
      have ht0 : t ≠ s0 := fun hh => ht (by simp [hh])
      have htr : t ∉ rest := fun hh => ht (List.mem_cons.mpr (Or.inr hh))
      rw [hframe t htr, hb1]
      exact alookup_dictInsert_ne _ _ _ _ ht0

theorem addOptionalSignals_skip (e : Entity) (name : Option String) (sep : String)
    (idx : Option Nat) (ci : Bool) (attrName sigName : String)
    (habs : caseInsensGetattr e (composeName name sep sigName) = none) :
    ∀ (pre : List (String × String)) (b : Bus) (rest : List (String × String)),
    b.entity = e →
    addOptionalSignals b (pre ++ (attrName, sigName) :: rest) name sep idx ci
      = addOptionalSignals b (pre ++ rest) name sep idx ci := by
  intro pre
  induction pre with
  | nil =>
    intro b rest hent
    simp only [List.nil_append, addOptionalSignals, hent, habs, Option.isSome_none,
      Bool.false_eq_true, if_false]
  | cons p pre' ih =>
    intro b rest hent
    obtain ⟨a0, s0⟩ := p
    simp only [List.cons_append, addOptionalSignals]
    by_cases hp : (caseInsensGetattr b.entity (composeName name sep s0)).isSome
    · simp only [hp, if_true]
      cases hstep : addSignal b a0 (composeName name sep s0) idx ci with
      | error err => rfl
      | ok b1 =>
        have hent1 : b1.entity = e := by
          rw [(addSignal_frame b b1 _ _ _ _ hstep).1, hent]
        exact ih b1 rest hent1
    · simp only [hp, if_false]
      exact ih b rest hent

/-! ### Helper lemmas: drive -/

theorem signalIds_cons_some (a : String) (h : Handle) (rest : List (String × Option Handle)) :
    signalIds ((a, some h) :: rest) = h.id :: signalIds rest := by
  simp [signalIds, List.filterMap_cons]

theorem signalIds_cons_none (a : String) (rest : List (String × Option Handle)) :
    signalIds ((a, none) :: rest) = signalIds rest := by
  simp [signalIds, List.filterMap_cons]

theorem mem_signalIds (a : String) (h : Handle) :
    ∀ (l : List (String × Option Handle)), (a, some h) ∈ l → h.id ∈ signalIds l := by
  intro l
  induction l with
  | nil => simp
  | cons p rest ih =>
    intro hm
    rcases List.mem_cons.mp hm with h1 | h1
    · rw [← h1, signalIds_cons_some]
      simp
    · obtain ⟨a0, hdl0⟩ := p
      cases hdl0 with
      | none =>
        rw [signalIds_cons_none]
        exact ih h1
      | some h0 =>
        rw [signalIds_cons_some]
        exact List.mem_cons.mpr (Or.inr (ih h1))

theorem mem_akeys_cons {α : Type} (a : String) (p : String × α) (rest : List (String × α))
    (h : a ∈ akeys rest) : a ∈ akeys (p :: rest) := by
  simp only [akeys, List.map_cons, List.mem_cons]
  exact Or.inr h

theorem mem_akeys_of_mem {α : Type} {a : String} {x : α} {l : List (String × α)}
    (h : (a, x) ∈ l) : a ∈ akeys l :=
  List.mem_map.mpr ⟨(a, x), h, rfl⟩

theorem driveAux_frame (ename : String) (name : Option String) (obj : Obj) (strict : Bool) :
    ∀ (l : List (String × Option Handle)) (st : SimState) (i : HandleId),
    i ∉ signalIds l → (driveAux ename name obj strict l st).1 i = st i := by
  intro l
  induction l with
  | nil =>
    intro st i hi
    rfl
  | cons p rest ih =>
    intro st i hi
    obtain ⟨attrName, hdl⟩ := p
    cases hv : alookup obj.oattrs attrName with
    | none =>
      cases strict with
      | true => simp [driveAux, hv]
      | false =>
        simp only [driveAux, hv]
        cases hdl with
        | none =>
          rw [signalIds_cons_none] at hi
          exact ih st i hi
        | some h0 =>
          rw [signalIds_cons_some] at hi
          exact ih st i (fun hm => hi (List.mem_cons.mpr (Or.inr hm)))
    | some v =>
      cases hdl with
      | none => simp [driveAux, hv]
      | some h0 =>
        rw [signalIds_cons_some] at hi
        simp only [driveAux, hv]
        rw [ih _ i (fun hm => hi (List.mem_cons.mpr (Or.inr hm)))]
        exact if_neg (fun hh => hi (List.mem_cons.mpr (Or.inl hh)))

theorem driveAux_no_error (ename : String) (name : Option String) (obj : Obj) (strict : Bool) :
    ∀ (l : List (String × Option Handle)) (st : SimState),
    (∀ p ∈ l, p.2.isSome) →
    (strict = true → ∀ a ∈ akeys l, (alookup obj.oattrs a).isSome) →
    (driveAux ename name obj strict l st).2 = none := by
  intro l
  induction l with
  | nil =>
    intro st hall hstrict
    rfl
  | cons p rest ih =>
    intro st hall hstrict
    obtain ⟨attrName, hdl⟩ := p
    obtain ⟨h0, hh0⟩ := Option.isSome_iff_exists.mp (hall (attrName, hdl) (by simp))
    subst hh0
    cases hv : alookup obj.oattrs attrName with
    | none =>
      cases strict with
      | true =>
        have := hstrict rfl attrName (by simp [akeys])
        rw [hv] at this
        simp at this
      | false =>
        simp only [driveAux, hv]
        exact ih st (fun p hp => hall p (List.mem_cons.mpr (Or.inr hp)))
          (fun hc => absurd hc (by simp))
    | some v =>
      simp only [driveAux, hv]
      exact ih _ (fun p hp => hall p (List.mem_cons.mpr (Or.inr hp)))
        (fun hc a ha => hstrict hc a (mem_akeys_cons a _ rest ha))

theorem driveAux_writes (ename : String) (name : Option String) (obj : Obj) (strict : Bool) :
    ∀ (l : List (String × Option Handle)) (st : SimState) (a : String) (h : Handle) (v : PyVal),
    (signalIds l).Nodup → (∀ p ∈ l, p.2.isSome) → (a, some h) ∈ l →
    alookup obj.oattrs a = some v →
    (strict = true → ∀ aa ∈ akeys l, (alookup obj.oattrs aa).isSome) →
    (driveAux ename name obj strict l st).1 h.id = v := by
  intro l
  induction l with
  | nil => simp
  | cons p rest ih =>
    intro st a h v hnd hall hmem hv hstrict
    obtain ⟨attrName, hdl⟩ := p
    obtain ⟨h0, hh0⟩ := Option.isSome_iff_exists.mp (hall (attrName, hdl) (by simp))
    subst hh0
    rw [signalIds_cons_some] at hnd
    rcases List.mem_cons.mp hmem with h1 | h1
    · injection h1 with ha hh
      injection hh with hh
      subst ha
      subst hh
      simp only [driveAux, hv]
      rw [driveAux_frame ename name obj strict rest _ h.id (List.nodup_cons.mp hnd).1]
      simp [SimState.set]
    · have hne : h0.id ≠ h.id := by
        intro hh
        exact (List.nodup_cons.mp hnd).1 (hh ▸ mem_signalIds a h rest h1)
      cases hv0 : alookup obj.oattrs attrName with
      | none =>
        cases strict with
        | true =>
          have := hstrict rfl attrName (by simp [akeys])
          rw [hv0] at this
          simp at this
        | false =>
          simp only [driveAux, hv0]
          exact ih st a h v (List.nodup_cons.mp hnd).2
            (fun p hp => hall p (List.mem_cons.mpr (Or.inr hp))) h1 hv
            (fun hc => absurd hc (by simp))
      | some v0 =>
        simp only [driveAux, hv0]
        exact ih _ a h v (List.nodup_cons.mp hnd).2
          (fun p hp => hall p (List.mem_cons.mpr (Or.inr hp))) h1 hv
          (fun hc aa ha => hstrict hc aa (mem_akeys_cons aa _ rest ha))

theorem driveAux_skips (ename : String) (name : Option String) (obj : Obj) :
    ∀ (l : List (String × Option Handle)) (st : SimState) (a : String) (h : Handle),
    (signalIds l).Nodup → (a, some h) ∈ l → alookup obj.oattrs a = none →
    (driveAux ename name obj false l st).1 h.id = st h.id := by
  intro l
  induction l with
  | nil => simp
  | cons p rest ih =>
    intro st a h hnd hmem hv
    obtain ⟨attrName, hdl⟩ := p
    rcases List.mem_cons.mp hmem with h1 | h1
    · injection h1 with ha hh
      subst ha
      subst hh
      rw [signalIds_cons_some] at hnd
      simp only [driveAux, hv, Bool.false_eq_true, if_false]
      exact driveAux_frame ename name obj false rest st h.id (List.nodup_cons.mp hnd).1
    · cases hv0 : alookup obj.oattrs attrName with
      | none =>
        simp only [driveAux, hv0]
        cases hdl with
        | none =>
          rw [signalIds_cons_none] at hnd
          exact ih st a h hnd h1 hv
        | some h0 =>
          rw [signalIds_cons_some] at hnd
          exact ih st a h (List.nodup_cons.mp hnd).2 h1 hv
      | some v0 =>
        cases hdl with
        | none => simp [driveAux, hv0, SimState.set]
        | some h0 =>
          rw [signalIds_cons_some] at hnd
          have hne : h0.id ≠ h.id := by
            intro hh
            exact (List.nodup_cons.mp hnd).1 (hh ▸ mem_signalIds a h rest h1)
          have hne' : ¬ (h.id = h0.id) := fun hh => hne hh.symm
          simp only [driveAux, hv0]
          rw [ih _ a h (List.nodup_cons.mp hnd).2 h1 hv]
          simp [SimState.set, hne']

theorem driveAux_strict_error (ename : String) (name : Option String) (obj : Obj) :
    ∀ (pre : List (String × Option Handle)) (st : SimState) (a : String) (hdl : Option Handle)
    (rest : List (String × Option Handle)),
    (∀ p ∈ pre, (alookup obj.oattrs p.1).isSome ∧ p.2.isSome) →
    alookup obj.oattrs a = none →
    (driveAux ename name obj true (pre ++ (a, hdl) :: rest) st).2
      = some (.attributeError (driveMsg ename name obj.tyName a)) := by
  intro pre
  induction pre with
  | nil =>
    intro st a hdl rest hpre hv
    simp [driveAux, hv]
  | cons p pre' ih =>
    intro st a hdl rest hpre hv
    obtain ⟨a0, hdl0⟩ := p
    obtain ⟨hvs0, hhs0⟩ := hpre (a0, hdl0) (by simp)
    obtain ⟨v0, hv0⟩ := Option.isSome_iff_exists.mp hvs0
    obtain ⟨h0, hh0⟩ := Option.isSome_iff_exists.mp hhs0
    subst hh0
    simp only [List.cons_append, driveAux, hv0]
    exact ih _ a hdl rest (fun q hq => hpre q (List.mem_cons.mpr (Or.inr hq))) hv

/-! ### Helper lemmas: sample -/

theorem sampleAux_frame (ename : String) (name : Option String) (strict : Bool) (st : SimState) :
    ∀ (l : List (String × Option Handle)) (obj : Obj) (a : String), a ∉ akeys l →
    alookup ((sampleAux ename name strict st l obj).1).oattrs a = alookup obj.oattrs a := by
  intro l
  induction l with
  | nil =>
    intro obj a ha
    rfl
  | cons p rest ih =>
    intro obj a ha
    obtain ⟨attrName, hdl⟩ := p
    have hane : a ≠ attrName := fun hh => ha (by simp [akeys, hh])
    have har : a ∉ akeys rest := fun hh => ha (mem_akeys_cons a _ rest hh)
    cases hv : alookup obj.oattrs attrName with
    | none =>
      cases strict with
      | true => simp [sampleAux, hv]
      | false =>
        simp only [sampleAux, hv]
        exact ih obj a har
    | some dest =>
      cases hdl with
      | none => simp [sampleAux, hv]
      | some h0 =>
        simp only [sampleAux, hv]
        rw [ih _ a har]
        exact alookup_dictInsert_ne _ _ _ _ hane

theorem sampleAux_no_error (ename : String) (name : Option String) (st : SimState) :
    ∀ (l : List (String × Option Handle)) (obj : Obj),
    (∀ p ∈ l, p.2.isSome) → (sampleAux ename name false st l obj).2 = none := by
  intro l
  induction l with
  | nil =>
    intro obj hall
    rfl
  | cons p rest ih =>
    intro obj hall
    obtain ⟨attrName, hdl⟩ := p
    obtain ⟨h0, hh0⟩ := Option.isSome_iff_exists.mp (hall (attrName, hdl) (by simp))
    subst hh0
    cases hv : alookup obj.oattrs attrName with
    | none =>
      simp only [sampleAux, hv, Bool.false_eq_true, if_false]
      exact ih obj (fun p hp => hall p (List.mem_cons.mpr (Or.inr hp)))
    | some dest =>
      simp only [sampleAux, hv]
      exact ih _ (fun p hp => hall p (List.mem_cons.mpr (Or.inr hp)))

theorem sampleAux_assigns (ename : String) (name : Option String) (st : SimState) :
    ∀ (l : List (String × Option Handle)) (obj : Obj) (a : String) (h : Handle) (dest : PyVal),
    (akeys l).Nodup → (∀ p ∈ l, p.2.isSome) → (a, some h) ∈ l →
    alookup obj.oattrs a = some dest →
    alookup ((sampleAux ename name false st l obj).1).oattrs a
      = some (sampleAssign dest (st h.id)) := by
  intro l
  induction l with
  | nil => simp
  | cons p rest ih =>
    intro obj a h dest hnd hall hmem hv
    obtain ⟨attrName, hdl⟩ := p
    have hnd' := List.nodup_cons.mp (show (attrName :: akeys rest).Nodup from hnd)
    rcases List.mem_cons.mp hmem with h1 | h1
    · injection h1 with ha hh
      subst ha
      subst hh
      simp only [sampleAux, hv]
      rw [sampleAux_frame ename name false st rest _ a hnd'.1]
      simp [Obj.setattr, alookup_dictInsert_self]
    · have hane : a ≠ attrName := by
        intro hh
        exact hnd'.1 (hh ▸ mem_akeys_of_mem h1)
      cases hv0 : alookup obj.oattrs attrName with
      | none =>
        simp only [sampleAux, hv0, Bool.false_eq_true, if_false]
        exact ih obj a h dest hnd'.2 (fun p hp => hall p (List.mem_cons.mpr (Or.inr hp))) h1 hv
      | some dest0 =>
        obtain ⟨h0, hh0⟩ := Option.isSome_iff_exists.mp (hall (attrName, hdl) (by simp))
        subst hh0
        simp only [sampleAux, hv0]
        refine ih _ a h dest hnd'.2 (fun p hp => hall p (List.mem_cons.mpr (Or.inr hp))) h1 ?_
        rw [show alookup (obj.setattr attrName (sampleAssign dest0 (st h0.id))).oattrs a
            = alookup obj.oattrs a from alookup_dictInsert_ne _ _ _ _ hane]
        exact hv

theorem sampleAux_strict_error (ename : String) (name : Option String) (st : SimState) :
    ∀ (pre : List (String × Option Handle)) (obj : Obj) (a : String) (hdl : Option Handle)
    (rest : List (String × Option Handle)),
    (∀ p ∈ pre, (alookup obj.oattrs p.1).isSome ∧ p.2.isSome) →
    alookup obj.oattrs a = none →
    (sampleAux ename name true st (pre ++ (a, hdl) :: rest) obj).2
      = some (.attributeError (sampleMsg ename name obj.tyName a)) := by
  intro pre
  induction pre with
  | nil =>
    intro obj a hdl rest hpre hv
    simp [sampleAux, hv]
  | cons p pre' ih =>
    intro obj a hdl rest hpre hv
    obtain ⟨a0, hdl0⟩ := p
    obtain ⟨hvs0, hhs0⟩ := hpre (a0, hdl0) (by simp)
    obtain ⟨v0, hv0⟩ := Option.isSome_iff_exists.mp hvs0
    obtain ⟨h0, hh0⟩ := Option.isSome_iff_exists.mp hhs0
    subst hh0
    simp only [List.cons_append, sampleAux, hv0]
    refine ih _ a hdl rest (fun q hq => ⟨?_, (hpre q (List.mem_cons.mpr (Or.inr hq))).2⟩) ?_
    · by_cases hq0 : q.1 = a0
      · rw [hq0]
        simp [Obj.setattr, alookup_dictInsert_self]
      · rw [show alookup (obj.setattr a0 (sampleAssign v0 (st h0.id))).oattrs q.1
            = alookup obj.oattrs q.1 from alookup_dictInsert_ne _ _ _ _ hq0]
        exact (hpre q (List.mem_cons.mpr (Or.inr hq))).1
    · by_cases ha0 : a = a0
      · rw [ha0] at hv
        rw [hv0] at hv
        exact absurd hv (by simp)
      · rw [show alookup (obj.setattr a0 (sampleAssign v0 (st h0.id))).oattrs a
            = alookup obj.oattrs a from alookup_dictInsert_ne _ _ _ _ ha0]
        exact hv

/-! ### Helper lemmas: capture -/

theorem captureAux_spec (st : SimState) :
    ∀ (l : List (String × Option Handle)) (acc : Capture),
    (∀ p ∈ l, p.2.isSome) → (akeys l).Nodup → (∀ k ∈ akeys l, k ∉ akeys acc) →
    captureAux st l acc = .ok (acc ++ l.map (fun p => (p.1, st (hdlId p.2)))) := by
  intro l
  induction l with
  | nil =>
    intro acc hall hnd hdisj
    simp [captureAux]
  | cons p rest ih =>
    intro acc hall hnd hdisj
    obtain ⟨attrName, hdl⟩ := p
    obtain ⟨h0, hh0⟩ := Option.isSome_iff_exists.mp (hall (attrName, hdl) (by simp))
    subst hh0
    have hnd' := List.nodup_cons.mp (show (attrName :: akeys rest).Nodup from hnd)
    have hfresh : attrName ∉ akeys acc := hdisj attrName (by simp [akeys])
    simp only [captureAux, captureSetitem]
    rw [dictInsert_of_not_mem acc attrName _ hfresh]
    rw [ih (acc ++ [(attrName, st h0.id)])
      (fun p hp => hall p (List.mem_cons.mpr (Or.inr hp))) hnd'.2 ?_]
    · simp [hdlId]
    · intro k hk
      simp only [akeys, List.map_append, List.mem_append]
      push_neg
      constructor
      · exact hdisj k (mem_akeys_cons k _ rest hk)
      · intro hc
        simp only [List.map_cons, List.map_nil, List.mem_singleton] at hc
        exact hnd'.1 (hc ▸ hk)

/-! ### Claims -/

/-- C1 counterexample: with `case_insensitive = True` (the default) and
a mandatory signal that resolves nowhere on the entity, `Bus`
construction does not raise at all: `_caseInsensGetattr` returns `None`
and `_add_signal` silently records it, so a `Bus` IS produced, with a
`None` handle under the attribute name — refuting the claim that a
missing mandatory signal raises an `AttributeError` regardless of the
`case_insensitive` flag. -/
theorem C1_counterexample :
    caseInsensGetattr ⟨"dut", []⟩ "a" = none ∧
    Bus.init ⟨"dut", []⟩ none (.list ["a"]) (.list []) "_" true none
      = .ok ⟨⟨"dut", []⟩, none, [("a", none)], [("a", none)]⟩ :=
  ⟨by decide, by decide⟩

/-- C1 (amended): only when `case_insensitive` is `False` does a missing
mandatory signal raise an `AttributeError` naming exactly the composed
signal name, immediately (before any later signal is processed) and
with no `Bus` produced; when `case_insensitive` is `True` (and no array
index is used), construction instead succeeds and records a `None`
handle under the attribute name. -/
theorem C1_missing_mandatory_signal (e : Entity) (name : Option String) (sep : String)
    (attr sig : String) :
    (∀ (rest : List (String × String)) (opts : SignalsArg) (idx : Option Nat),
      alookup e.attrs (composeName name sep sig) = none →
      Bus.init e name (.dict ((attr, sig) :: rest)) opts sep false idx
        = .error (.attributeError (composeName name sep sig))) ∧
    (caseInsensGetattr e (composeName name sep sig) = none →
      Bus.init e name (.dict [(attr, sig)]) (.list []) sep true none
        = .ok ⟨e, name, [(attr, none)], [(attr, none)]⟩) := by
  constructor
  · intro rest opts idx h
    have hstep := addSignal_missing_cs ⟨e, name, [], []⟩ attr (composeName name sep sig) idx h
    simp [Bus.init, buildSigAttrDict, addSignals, hstep]
  · intro h
    have hstep := addSignal_missing_ci ⟨e, name, [], []⟩ attr (composeName name sep sig) h
    simp [Bus.init, buildSigAttrDict, addSignals, hstep, addOptionalSignals, dictInsert]

/-- C1 witness: both amended branches at concrete inputs. -/
theorem C1_missing_mandatory_signal_witness :
    Bus.init ⟨"dut", []⟩ (some "in") (.dict [("a", "a")]) (.list []) "_" false none
      = .error (.attributeError "in_a") ∧
    Bus.init ⟨"dut", []⟩ (some "in") (.dict [("a", "a")]) (.list []) "_" true none
      = .ok ⟨⟨"dut", []⟩, some "in", [("a", none)], [("a", none)]⟩ := by
  constructor
  · have h := (C1_missing_mandatory_signal ⟨"dut", []⟩ (some "in") "_" "a" "a").1
      [] (.list []) none (by decide)
    exact h.trans (by decide)
  · have h := (C1_missing_mandatory_signal ⟨"dut", []⟩ (some "in") "_" "a" "a").2 (by decide)
    exact h

/-- C2 counterexample: the claim says every attempt to mutate a capture
fails, including key assignment; but `_Capture` inherits `__setitem__`
unchanged from `dict`, so key assignment succeeds and mutates the
capture (and the attribute-assignment error message is a fixed string
that does not surface the offending name). -/
theorem C2_counterexample :
    captureSetitem [("a", PyVal.binval "BinaryValue" "1")] "b" (PyVal.plain "int" "5")
      = [("a", PyVal.binval "BinaryValue" "1"), ("b", PyVal.plain "int" "5")] ∧
    captureSetattr [("a", PyVal.binval "BinaryValue" "1")] "a" (PyVal.plain "int" "5")
      = .error (.runtimeError "Modifying a bus capture is not supported") :=
  ⟨by decide, by decide⟩

/-- C2 (amended): `capture()` maps exactly the resolved attribute names
to the handles' values at capture time; attribute access for a present
name returns that value; attribute access for an absent name raises a
`RuntimeError` naming that attribute; attribute assignment and
attribute deletion raise a `RuntimeError` with a fixed message that
does not include the offending name; key assignment is not blocked and
mutates the capture. -/
theorem C2_capture_semantics :
    (∀ (b : Bus) (st : SimState), (∀ p ∈ b.signals, p.2.isSome) →
      (akeys b.signals).Nodup →
      b.capture st = .ok (b.signals.map (fun p => (p.1, st (hdlId p.2))))) ∧
    (∀ (c : Capture) (n : String) (v : PyVal), alookup c n = some v →
      captureGetattr c n = .ok v) ∧
    (∀ (c : Capture) (n : String), alookup c n = none →
      captureGetattr c n = .error (.runtimeError ("Signal " ++ n ++ " not present in bus"))) ∧
    (∀ (c : Capture) (n : String) (v : PyVal),
      captureSetattr c n v = .error (.runtimeError "Modifying a bus capture is not supported")) ∧
    (∀ (c : Capture) (n : String),
      captureDelattr c n = .error (.runtimeError "Modifying a bus capture is not supported")) ∧
    (∀ (c : Capture) (n : String) (v : PyVal), alookup (captureSetitem c n v) n = some v) := by
  refine ⟨?_, ?_, ?_, fun c n v => rfl, fun c n => rfl, ?_⟩
  · intro b st hall hnd
    unfold Bus.capture
    rw [captureAux_spec st b.signals [] hall hnd (by simp [akeys])]
    simp
  · intro c n v h
    simp [captureGetattr, h]
  · intro c n h
    simp [captureGetattr, h]
  · intro c n v
    exact alookup_dictInsert_self c n v

/-- C2 witness: the amended capture semantics at concrete inputs. -/
theorem C2_capture_semantics_witness :
    Bus.capture ⟨⟨"dut", [("x", ⟨3, []⟩)]⟩, none, [("x", some ⟨3, []⟩)], [("x", some ⟨3, []⟩)]⟩
        (fun _ => PyVal.binval "BinaryValue" "1") = .ok [("x", PyVal.binval "BinaryValue" "1")] ∧
    captureGetattr [("x", PyVal.binval "BinaryValue" "1")] "x" = .ok (PyVal.binval "BinaryValue" "1") ∧
    captureGetattr [("x", PyVal.binval "BinaryValue" "1")] "y"
      = .error (.runtimeError "Signal y not present in bus") ∧
    captureSetattr [("x", PyVal.binval "BinaryValue" "1")] "x" (PyVal.plain "int" "5")
      = .error (.runtimeError "Modifying a bus capture is not supported") ∧
    captureDelattr [("x", PyVal.binval "BinaryValue" "1")] "x"
      = .error (.runtimeError "Modifying a bus capture is not supported") ∧
    alookup (captureSetitem [("x", PyVal.binval "BinaryValue" "1")] "y" (PyVal.plain "int" "5")) "y"
      = some (PyVal.plain "int" "5") := by
  refine ⟨?_, ?_, ?_, ?_, ?_, ?_⟩
  · have h := C2_capture_semantics.1 ⟨⟨"dut", [("x", ⟨3, []⟩)]⟩, none,
      [("x", some ⟨3, []⟩)], [("x", some ⟨3, []⟩)]⟩
      (fun _ => PyVal.binval "BinaryValue" "1") (by decide) (by decide)
    exact h.trans (by decide)
  · exact C2_capture_semantics.2.1 [("x", PyVal.binval "BinaryValue" "1")] "x" _ (by decide)
  · have h := C2_capture_semantics.2.2.1 [("x", PyVal.binval "BinaryValue" "1")] "y" (by decide)
    exact h.trans (by decide)
  · exact C2_capture_semantics.2.2.2.1 [("x", PyVal.binval "BinaryValue" "1")] "x" _
  · exact C2_capture_semantics.2.2.2.2.1 [("x", PyVal.binval "BinaryValue" "1")] "x"
  · exact C2_capture_semantics.2.2.2.2.2 [("x", PyVal.binval "BinaryValue" "1")] "y" _

/-- C3: an optional signal whose composed name fails the (always
case-insensitive) probe is skipped without any error: construction with
it listed equals construction without it, for every value of the
`case_insensitive` flag; and when its attribute name is not used by any
other signal of the bus, the attribute is absent from the resolved set
of the constructed bus (hence never appears in later
drive/sample/capture, which iterate the resolved set). -/
theorem C3_optional_missing_skipped (e : Entity) (name : Option String)
    (signals : SignalsArg) (sep : String) (ci : Bool) (idx : Option Nat)
    (attr sig : String) (pre rest : List (String × String))
    (habs : caseInsensGetattr e (composeName name sep sig) = none) :
    Bus.init e name signals (.dict (pre ++ (attr, sig) :: rest)) sep ci idx
      = Bus.init e name signals (.dict (pre ++ rest)) sep ci idx ∧
    (∀ b, Bus.init e name signals (.dict (pre ++ rest)) sep ci idx = .ok b →
      attr ∉ akeys (buildSigAttrDict signals) → attr ∉ akeys (pre ++ rest) →
      alookup b.signals attr = none) := by
  constructor
  · unfold Bus.init
    cases hm : addSignals ⟨e, name, [], []⟩ (buildSigAttrDict signals) name sep idx ci with
    | error err => rfl
    | ok b1 =>
      have hent : b1.entity = e := (addSignals_frame name sep idx ci _ _ b1 hm).1
      exact addOptionalSignals_skip e name sep idx ci attr sig habs pre b1 rest hent
  · intro b hok h1 h2
    have hkeys := init_keys e name signals (.dict (pre ++ rest)) sep ci idx b hok
    refine alookup_eq_none_of_not_mem _ attr (fun hm => ?_)
    rcases List.mem_append.mp (hkeys hm) with h3 | h3
    · exact h1 h3
    · exact h2 h3

/-- C3 witness: a missing optional signal at a concrete bus. -/
theorem C3_optional_missing_skipped_witness :
    Bus.init ⟨"dut", [("clk", ⟨0, []⟩)]⟩ none (.list ["clk"]) (.dict [("rdy", "rdy")]) "_" true none
      = Bus.init ⟨"dut", [("clk", ⟨0, []⟩)]⟩ none (.list ["clk"]) (.dict []) "_" true none ∧
    alookup (Bus.signals ⟨⟨"dut", [("clk", ⟨0, []⟩)]⟩, none,
      [("clk", some ⟨0, []⟩)], [("clk", some ⟨0, []⟩)]⟩) "rdy" = none := by
  have h := C3_optional_missing_skipped ⟨"dut", [("clk", ⟨0, []⟩)]⟩ none (.list ["clk"])
    "_" true none "rdy" "rdy" [] [] (by decide)
  exact ⟨h.1, h.2 _ (by decide) (by decide) (by decide)⟩

/-- C4: the case-insensitive lookup of the source
(`caseInsensGetattr`, translated from `_caseInsensGetattr`) coincides
with the policy as the spec words it: exact name first, then the
uppercased name, then the lowercased name, and only when all three fail
the exhaustive case-folded scan of the entity's attributes — the only
path by which arbitrary mixed-case names resolve. -/
theorem C4_resolution_policy (e : Entity) (attr : String) :
    caseInsensGetattr e attr = caseInsensSpecPolicy e attr := by
  unfold caseInsensGetattr caseInsensSpecPolicy
  cases h1 : e.getattrOpt attr with
  | some h => simp [h1]
  | none =>
    cases h2 : e.getattrOpt (strUpper attr) with
    | some h => simp [h1, h2]
    | none =>
      cases h3 : e.getattrOpt (strLower attr) with
      | some h => simp [h1, h2, h3]
      | none => simp [h1, h2, h3]

/-- C5: `drive(obj, strict)` writes `obj`'s attribute values into the
corresponding handles' values.  Part 1 (non-strict): no error; every
resolved attribute that `obj` has is written, every one it lacks is
skipped, its handle's value left unchanged.  Part 2 (any strict value,
`obj` has every resolved attribute): no error and all writes happen.
Part 3 (strict, `obj` lacks the attribute reached first): an
`AttributeError` naming the entity, the bus, the object's type and the
missing attribute.  Hypotheses: every resolved handle is present
(not `None`) and distinct attributes drive distinct signals. -/
theorem C5_drive (b : Bus) (obj : Obj) (st : SimState) :
    ((signalIds b.signals).Nodup → (∀ p ∈ b.signals, p.2.isSome) →
      ((b.drive obj false st).2 = none ∧
       (∀ a h v, (a, some h) ∈ b.signals → alookup obj.oattrs a = some v →
         (b.drive obj false st).1 h.id = v) ∧
       (∀ a h, (a, some h) ∈ b.signals → alookup obj.oattrs a = none →
         (b.drive obj false st).1 h.id = st h.id))) ∧
    ((signalIds b.signals).Nodup → (∀ p ∈ b.signals, p.2.isSome) →
      (∀ a ∈ akeys b.signals, (alookup obj.oattrs a).isSome) →
      ∀ strict, (b.drive obj strict st).2 = none ∧
       (∀ a h v, (a, some h) ∈ b.signals → alookup obj.oattrs a = some v →
         (b.drive obj strict st).1 h.id = v)) ∧
    (∀ (pre : List (String × Option Handle)) (a : String) (hdl : Option Handle)
      (rest : List (String × Option Handle)),
      b.signals = pre ++ (a, hdl) :: rest →
      (∀ p ∈ pre, (alookup obj.oattrs p.1).isSome ∧ p.2.isSome) →
      alookup obj.oattrs a = none →
      (b.drive obj true st).2
        = some (.attributeError (driveMsg b.entity.ename b.name obj.tyName a))) := by
  refine ⟨?_, ?_, ?_⟩
  · intro hnd hall
    refine ⟨?_, ?_, ?_⟩
    · exact driveAux_no_error b.entity.ename b.name obj false b.signals st hall
        (fun hc => absurd hc (by simp))
    · intro a h v hmem hv
      exact driveAux_writes b.entity.ename b.name obj false b.signals st a h v hnd hall hmem hv
        (fun hc => absurd hc (by simp))
    · intro a h hmem hv
      exact driveAux_skips b.entity.ename b.name obj b.signals st a h hnd hmem hv
  · intro hnd hall htot strict
    refine ⟨?_, ?_⟩
    · exact driveAux_no_error b.entity.ename b.name obj strict b.signals st hall
        (fun _ => htot)
    · intro a h v hmem hv
      exact driveAux_writes b.entity.ename b.name obj strict b.signals st a h v hnd hall hmem hv
        (fun _ => htot)
  · intro pre a hdl rest hsplit hpre hv
    unfold Bus.drive
    rw [hsplit]
    exact driveAux_strict_error b.entity.ename b.name obj pre st a hdl rest hpre hv

/-- C5 witness: a two-signal bus driven by an object that has only one
of the attributes: non-strict writes the one it has and leaves the
other unchanged without error; strict raises naming the missing one. -/
theorem C5_drive_witness :
    ((Bus.drive ⟨⟨"dut", [("x", ⟨3, []⟩), ("y", ⟨4, []⟩)]⟩, none,
        [("x", some ⟨3, []⟩), ("y", some ⟨4, []⟩)], [("x", some ⟨3, []⟩), ("y", some ⟨4, []⟩)]⟩
        ⟨"T", [("y", PyVal.binval "BinaryValue" "101")]⟩ false (fun _ => PyVal.plain "int" "0")).2
      = none) ∧
    ((Bus.drive ⟨⟨"dut", [("x", ⟨3, []⟩), ("y", ⟨4, []⟩)]⟩, none,
        [("x", some ⟨3, []⟩), ("y", some ⟨4, []⟩)], [("x", some ⟨3, []⟩), ("y", some ⟨4, []⟩)]⟩
        ⟨"T", [("y", PyVal.binval "BinaryValue" "101")]⟩ false (fun _ => PyVal.plain "int" "0")).1 4
      = PyVal.binval "BinaryValue" "101") ∧
    ((Bus.drive ⟨⟨"dut", [("x", ⟨3, []⟩), ("y", ⟨4, []⟩)]⟩, none,
        [("x", some ⟨3, []⟩), ("y", some ⟨4, []⟩)], [("x", some ⟨3, []⟩), ("y", some ⟨4, []⟩)]⟩
        ⟨"T", [("y", PyVal.binval "BinaryValue" "101")]⟩ false (fun _ => PyVal.plain "int" "0")).1 3
      = PyVal.plain "int" "0") ∧
    ((Bus.drive ⟨⟨"dut", [("x", ⟨3, []⟩), ("y", ⟨4, []⟩)]⟩, none,
        [("x", some ⟨3, []⟩), ("y", some ⟨4, []⟩)], [("x", some ⟨3, []⟩), ("y", some ⟨4, []⟩)]⟩
        ⟨"T", [("y", PyVal.binval "BinaryValue" "101")]⟩ true (fun _ => PyVal.plain "int" "0")).2
      = some (.attributeError "Unable to drive onto dut.None because T is missing attribute x")) := by
  have h := C5_drive ⟨⟨"dut", [("x", ⟨3, []⟩), ("y", ⟨4, []⟩)]⟩, none,
    [("x", some ⟨3, []⟩), ("y", some ⟨4, []⟩)], [("x", some ⟨3, []⟩), ("y", some ⟨4, []⟩)]⟩
    ⟨"T", [("y", PyVal.binval "BinaryValue" "101")]⟩ (fun _ => PyVal.plain "int" "0")
  have hns := h.1 (by decide) (by decide)
  have hmsg := h.2.2
  refine ⟨hns.1, ?_, ?_, ?_⟩
  · exact hns.2.1 "y" ⟨4, []⟩ (PyVal.binval "BinaryValue" "101") (by decide) (by decide)
  · exact hns.2.2 "x" ⟨3, []⟩ (by decide) (by decide)
  · have h2 := hmsg [] "x" (some ⟨3, []⟩) [("y", some ⟨4, []⟩)] (by decide)
      (fun p hp => absurd hp (List.not_mem_nil p)) (by decide)
    exact h2.trans (by decide)

/-- C6: `sample(obj)` first attempts the bit-string-preserving path
(`set_binstr` of the handle value's `get_binstr`), so a destination
that supports bit-string assignment keeps its type while receiving the
handle's bits; only when that path is unavailable — the destination has
no bit-string API, or the handle's value has none — does it fall back
to replacing the destination attribute directly with the handle's
value.  Hypotheses: resolved attribute names are distinct and every
handle is present. -/
theorem C6_sample (b : Bus) (obj : Obj) (st : SimState)
    (hnd : (akeys b.signals).Nodup) (hall : ∀ p ∈ b.signals, p.2.isSome) :
    (b.sample obj false st).2 = none ∧
    (∀ a h ty bits tys s, (a, some h) ∈ b.signals →
      alookup obj.oattrs a = some (.binval ty bits) → st h.id = .binval tys s →
      alookup ((b.sample obj false st).1).oattrs a = some (.binval ty s)) ∧
    (∀ a h ty rp, (a, some h) ∈ b.signals →
      alookup obj.oattrs a = some (.plain ty rp) →
      alookup ((b.sample obj false st).1).oattrs a = some (st h.id)) ∧
    (∀ a h ty bits tys rp, (a, some h) ∈ b.signals →
      alookup obj.oattrs a = some (.binval ty bits) → st h.id = .plain tys rp →
      alookup ((b.sample obj false st).1).oattrs a = some (st h.id)) := by
  unfold Bus.sample
  refine ⟨?_, ?_, ?_, ?_⟩
  · exact sampleAux_no_error b.entity.ename b.name st b.signals obj hall
  · intro a h ty bits tys s hmem hv hsv
    have := sampleAux_assigns b.entity.ename b.name st b.signals obj a h _ hnd hall hmem hv
    rw [this]
    rw [show sampleAssign (PyVal.binval ty bits) (st h.id) = PyVal.binval ty s by
      rw [hsv]
      rfl]
  · intro a h ty rp hmem hv
    have := sampleAux_assigns b.entity.ename b.name st b.signals obj a h _ hnd hall hmem hv
    rw [this]
    cases hsv : st h.id with
    | binval tys s => simp [sampleAssign, PyVal.getBinstr, PyVal.setBinstr]
    | plain tys rp2 => simp [sampleAssign, PyVal.getBinstr]
  · intro a h ty bits tys rp hmem hv hsv
    have := sampleAux_assigns b.entity.ename b.name st b.signals obj a h _ hnd hall hmem hv
    rw [this, hsv]
    rfl

/-- C6 witness: sampling into a destination with a bit-string-capable
value of a distinct type keeps that type; a plain destination is
replaced by the handle's value. -/
theorem C6_sample_witness :
    (Bus.sample ⟨⟨"dut", [("x", ⟨3, []⟩), ("y", ⟨4, []⟩)]⟩, none,
        [("x", some ⟨3, []⟩), ("y", some ⟨4, []⟩)], [("x", some ⟨3, []⟩), ("y", some ⟨4, []⟩)]⟩
        ⟨"T", [("x", PyVal.binval "MyBV" "000"), ("y", PyVal.plain "int" "0")]⟩ false
        (fun _ => PyVal.binval "BinaryValue" "111")).2 = none ∧
    alookup ((Bus.sample ⟨⟨"dut", [("x", ⟨3, []⟩), ("y", ⟨4, []⟩)]⟩, none,
        [("x", some ⟨3, []⟩), ("y", some ⟨4, []⟩)], [("x", some ⟨3, []⟩), ("y", some ⟨4, []⟩)]⟩
        ⟨"T", [("x", PyVal.binval "MyBV" "000"), ("y", PyVal.plain "int" "0")]⟩ false
        (fun _ => PyVal.binval "BinaryValue" "111")).1).oattrs "x"
      = some (PyVal.binval "MyBV" "111") ∧
    alookup ((Bus.sample ⟨⟨"dut", [("x", ⟨3, []⟩), ("y", ⟨4, []⟩)]⟩, none,
        [("x", some ⟨3, []⟩), ("y", some ⟨4, []⟩)], [("x", some ⟨3, []⟩), ("y", some ⟨4, []⟩)]⟩
        ⟨"T", [("x", PyVal.binval "MyBV" "000"), ("y", PyVal.plain "int" "0")]⟩ false
        (fun _ => PyVal.binval "BinaryValue" "111")).1).oattrs "y"
      = some (PyVal.binval "BinaryValue" "111") := by
  have h := C6_sample ⟨⟨"dut", [("x", ⟨3, []⟩), ("y", ⟨4, []⟩)]⟩, none,
    [("x", some ⟨3, []⟩), ("y", some ⟨4, []⟩)], [("x", some ⟨3, []⟩), ("y", some ⟨4, []⟩)]⟩
    ⟨"T", [("x", PyVal.binval "MyBV" "000"), ("y", PyVal.plain "int" "0")]⟩
    (fun _ => PyVal.binval "BinaryValue" "111") (by decide) (by decide)
  refine ⟨h.1, ?_, ?_⟩
  · exact h.2.1 "x" ⟨3, []⟩ "MyBV" "000" "BinaryValue" "111" (by decide) (by decide) rfl
  · exact h.2.2.1 "y" ⟨4, []⟩ "int" "0" (by decide) (by decide)

/-- C7: the composed on-entity name is `name ++ separator ++ signal`
when a (truthy) bus name is given and the bare signal name otherwise;
and for every list of signal names whose composed names resolve exactly
on the entity, construction succeeds and binds each attribute to the
entity signal of its composed name — in particular `["a","b"]` with no
bus name binds to entity signals `a`,`b`, and with bus name `"in"` and
separator `"_"` to `in_a`,`in_b`. -/
theorem C7_name_composition (e : Entity) (name : Option String) (sep : String)
    (sigs : List String) (ci : Bool)
    (hres : ∀ s ∈ sigs, (e.getattrOpt (composeName name sep s)).isSome) :
    (∀ sep' sig', composeName none sep' sig' = sig') ∧
    (∀ n sep' sig', n ≠ "" → composeName (some n) sep' sig' = n ++ sep' ++ sig') ∧
    ∃ b, Bus.init e name (.list sigs) (.list []) sep ci none = .ok b ∧
      ∀ s ∈ sigs, alookup b.signals s = some (e.getattrOpt (composeName name sep s)) := by
  refine ⟨fun sep' sig' => rfl, fun n sep' sig' hn => by simp [composeName, hn], ?_⟩
  obtain ⟨b', hrun, hent, hmem, hframe⟩ :=
    addSignals_resolve e name sep ci sigs ⟨e, name, [], []⟩ rfl hres
  refine ⟨b', ?_, hmem⟩
  simp [Bus.init, buildSigAttrDict, hrun, addOptionalSignals]

/-- C7 witness: the two concrete bindings named by the claim. -/
theorem C7_name_composition_witness :
    (∃ b, Bus.init ⟨"dut", [("a", ⟨1, []⟩), ("b", ⟨2, []⟩)]⟩ none (.list ["a", "b"])
        (.list []) "_" true none = .ok b ∧
      ∀ s ∈ ["a", "b"], alookup b.signals s
        = some (Entity.getattrOpt ⟨"dut", [("a", ⟨1, []⟩), ("b", ⟨2, []⟩)]⟩
            (composeName none "_" s))) ∧
    (∃ b, Bus.init ⟨"dut", [("in_a", ⟨1, []⟩), ("in_b", ⟨2, []⟩)]⟩ (some "in") (.list ["a", "b"])
        (.list []) "_" true none = .ok b ∧
      ∀ s ∈ ["a", "b"], alookup b.signals s
        = some (Entity.getattrOpt ⟨"dut", [("in_a", ⟨1, []⟩), ("in_b", ⟨2, []⟩)]⟩
            (composeName (some "in") "_" s))) :=
  ⟨(C7_name_composition ⟨"dut", [("a", ⟨1, []⟩), ("b", ⟨2, []⟩)]⟩ none "_" ["a", "b"] true
      (by decide)).2.2,
   (C7_name_composition ⟨"dut", [("in_a", ⟨1, []⟩), ("in_b", ⟨2, []⟩)]⟩ (some "in") "_"
      ["a", "b"] true (by decide)).2.2⟩

/-- C8: the operator-overload assignment `bus <= value` is a shorthand
for `drive(value)` — its effect on the simulator state and its error
outcome are exactly those of the non-strict drive — and, when the drive
raises nothing, it returns the deferred-assignment token
`_AssignmentResult(bus, value)` produced by the external handle layer
instead of performing any further write itself. -/
theorem C8_le_alias (b : Bus) (value : Obj) (st : SimState) :
    ((b.le value st).1).1 = (b.drive value false st).1 ∧
    ((b.le value st).1).2 = (b.drive value false st).2 ∧
    ((b.drive value false st).2 = none →
      (b.le value st).2 = some (AssignmentResult.mk b value)) := by
  unfold Bus.le
  cases h : (b.drive value false st).2 with
  | none => simp [h]
  | some err => simp [h]

/-- C8 witness: the alias at a concrete bus, object and state. -/
theorem C8_le_alias_witness :
    (Bus.le ⟨⟨"dut", [("x", ⟨3, []⟩)]⟩, none, [("x", some ⟨3, []⟩)], [("x", some ⟨3, []⟩)]⟩
        ⟨"T", [("x", PyVal.binval "BinaryValue" "1")]⟩ (fun _ => PyVal.plain "int" "0")).2
      = some (AssignmentResult.mk
          ⟨⟨"dut", [("x", ⟨3, []⟩)]⟩, none, [("x", some ⟨3, []⟩)], [("x", some ⟨3, []⟩)]⟩
          ⟨"T", [("x", PyVal.binval "BinaryValue" "1")]⟩) ∧
    ((Bus.le ⟨⟨"dut", [("x", ⟨3, []⟩)]⟩, none, [("x", some ⟨3, []⟩)], [("x", some ⟨3, []⟩)]⟩
        ⟨"T", [("x", PyVal.binval "BinaryValue" "1")]⟩ (fun _ => PyVal.plain "int" "0")).1).1 3
      = PyVal.binval "BinaryValue" "1" := by
  have h := C8_le_alias ⟨⟨"dut", [("x", ⟨3, []⟩)]⟩, none, [("x", some ⟨3, []⟩)], [("x", some ⟨3, []⟩)]⟩
    ⟨"T", [("x", PyVal.binval "BinaryValue" "1")]⟩ (fun _ => PyVal.plain "int" "0")
  refine ⟨h.2.2 (by decide), ?_⟩
  rw [show ((Bus.le ⟨⟨"dut", [("x", ⟨3, []⟩)]⟩, none, [("x", some ⟨3, []⟩)], [("x", some ⟨3, []⟩)]⟩
    ⟨"T", [("x", PyVal.binval "BinaryValue" "1")]⟩ (fun _ => PyVal.plain "int" "0")).1).1 3
      = (Bus.drive ⟨⟨"dut", [("x", ⟨3, []⟩)]⟩, none, [("x", some ⟨3, []⟩)], [("x", some ⟨3, []⟩)]⟩
    ⟨"T", [("x", PyVal.binval "BinaryValue" "1")]⟩ false (fun _ => PyVal.plain "int" "0")).1 3
    from congrFun h.1 3]
  decide

/-- C9: no sequence of post-construction operations (drive, sample,
capture, operator assignment) ever modifies the bus's resolved signal
set: after running any list of operations, the attribute-name-to-handle
mapping is exactly what construction left. -/
theorem C9_ops_preserve_signals (b : Bus) (st : SimState) (ops : List BusOp) :
    ((runOps b st ops).1).signals = b.signals := by
  induction ops generalizing b st with
  | nil => rfl
  | cons op rest ih =>
    cases op with
    | driveOp obj strict => exact ih b _
    | sampleOp obj strict => exact ih b _
    | captureOp => exact ih b _
    | assignLe obj => exact ih b _

/-- C10: construction binds each resolved handle both as an instance
attribute on the Bus object and as the `_signals` entry, and both refer
to the same handle; since Python instance attributes shadow class
members, a signal attribute named like an existing member (e.g.
`drive`) makes attribute lookup find the handle, replacing that member
on the instance. -/
theorem C10_instance_binding (entity : Entity) (name : Option String)
    (signals optionalSignals : SignalsArg) (sep : String) (ci : Bool) (idx : Option Nat)
    (b : Bus) (hok : Bus.init entity name signals optionalSignals sep ci idx = .ok b) :
    ∀ a oh, alookup b.signals a = some oh →
      alookup b.instAttrs a = some oh ∧ b.getattrB a = some (.sig oh) := by
  intro a oh h
  have hinv := init_sigs_eq_inst entity name signals optionalSignals sep ci idx b hok
  have h2 : alookup b.instAttrs a = some oh := hinv ▸ h
  refine ⟨h2, ?_⟩
  simp [Bus.getattrB, h2]

/-- C10 witness: a bus with a signal attribute named `drive`: instance
lookup yields the handle (not the class method), and the `_signals`
entry is that same handle. -/
theorem C10_instance_binding_witness :
    alookup (Bus.instAttrs ⟨⟨"dut", [("drive", ⟨7, []⟩)]⟩, none,
      [("drive", some ⟨7, []⟩)], [("drive", some ⟨7, []⟩)]⟩) "drive" = some (some ⟨7, []⟩) ∧
    Bus.getattrB ⟨⟨"dut", [("drive", ⟨7, []⟩)]⟩, none,
      [("drive", some ⟨7, []⟩)], [("drive", some ⟨7, []⟩)]⟩ "drive"
      = some (.sig (some ⟨7, []⟩)) :=
  C10_instance_binding ⟨"dut", [("drive", ⟨7, []⟩)]⟩ none (.list ["drive"]) (.list [])
    "_" true none _ (by decide) "drive" (some ⟨7, []⟩) (by decide)

end CocotbBus
